import Mathlib

/-!
Shallow embedding of the Ollacode context-memory subsystem: the class
MemoryManager (src/services/memory/MemoryManager.ts) and the class
MemoryContextProcessor (src/services/mcp/MemoryContextProcessor.ts),
over the data model of types/memory.types.ts and types/chat.types.ts.

Modelling conventions:
- JavaScript numbers are exact rationals; dates are epoch-millisecond
  rationals.
- The ambient clock (new Date(), Date.now()) is an explicit parameter
  `now`.
- The recency score Math.exp(-(now - lastAccessed) / 3600000 / 24) is
  transcendental, so it is passed as an explicit function `rec` from
  `lastAccessed` values to scores; `rec la = 1` is the exact value the
  source computes when `la = now`.
- localStorage under the single key used by MemoryManager is the list
  `disk`; a setItem failure (caught and logged in the source) is the
  flag `ok = false`.
- The insertion-ordered Map `ramChunks` is a list of chunks; Map.set
  replaces in place when the key exists and appends otherwise.
- ECMAScript Array.prototype.sort with a consistent comparator computes
  the unique stable order, which is what List.insertionSort computes for
  the corresponding relation.
-/

namespace Ollacode

/-- Characters matched by the JavaScript regex class for whitespace
(ASCII fragment): space, tab, line feed, carriage return, vertical tab,
form feed. -/
def isJsWs (c : Char) : Bool :=
  c = ' ' || c = '\t' || c = '\n' || c = '\r' || c.toNat = 11 || c.toNat = 12

/-- Model of JavaScript split on runs of whitespace, on a list of
characters: split on maximal whitespace runs; a leading run yields a
leading empty piece, a trailing run a trailing empty piece, and the empty
string yields the single empty piece.  In particular the result is never
the empty list. -/
def splitWsCh : List Char → List (List Char)
  | [] => [[]]
  | c :: rest =>
    if isJsWs c then
      match rest, splitWsCh rest with
      | [], _ => [[], []]
      | c2 :: _, r => if isJsWs c2 then r else [] :: r
    else
      match splitWsCh rest with
      | [] => [[c]]
      | w :: ws => (c :: w) :: ws

/-- ASCII lowering of a character list, modelling toLowerCase on the
ASCII inputs considered here. -/
def lowerCh (cs : List Char) : List Char := cs.map Char.toLower

/-- Query terms of MemoryManager.calculateRelevance: the query is
lowercased and split on whitespace runs. -/
def queryWords (query : String) : List (List Char) :=
  splitWsCh (lowerCh query.toList)

/-- Test whether the first list is an initial segment of the second. -/
def isPrefixCh : List Char → List Char → Bool
  | [], _ => true
  | _ :: _, [] => false
  | a :: w, b :: cs => a = b && isPrefixCh w cs

/-- Model of the JavaScript includes test on strings, as lists of
characters: the first list occurs contiguously inside the second. -/
def isSubCh (w : List Char) : List Char → Bool
  | [] => w.isEmpty
  | c :: rest => isPrefixCh w (c :: rest) || isSubCh w rest

/-- Length bound for dropWhile, used for termination below. -/
theorem lengthDropWhileLe (p : α → Bool) :
    ∀ l : List α, (l.dropWhile p).length ≤ l.length := by
  intro l
  induction l with
  | nil => simp [List.dropWhile]
  | cons a l ih =>
    simp only [List.dropWhile]
    split
    · exact Nat.le_succ_of_le ih
    · exact Nat.le_refl _

/-- Message role from types/chat.types.ts. -/
inductive Role where
  | user
  | assistant
  | system
deriving DecidableEq

/-- Message record from types/chat.types.ts.  The optional metadata
arrays are modelled by their lengths: `citations` and `files` are the
number of citations and attached files, 0 when the field is absent or
empty (both are falsy in the source). -/
structure Message where
  id : String
  role : Role
  content : String
  timestamp : ℚ
  citations : ℕ
  files : ℕ
deriving DecidableEq

/-- MemoryChunk from types/memory.types.ts, with its nested metadata
flattened. -/
structure MemoryChunk where
  id : String
  content : String
  source : String
  timestamp : ℚ
  sessionId : String
  tags : List String
  importance : ℚ
  accessCount : ℕ
  lastAccessed : ℚ
deriving DecidableEq

/-- Value of a JavaScript floating-point division as far as this model
needs it: an ordinary number or one of the special values. -/
inductive JsNumber where
  | nan
  | posInf
  | negInf
  | num (q : ℚ)
deriving DecidableEq

/-- JavaScript division: zero over zero is NaN, a nonzero numerator over
zero is a signed infinity, anything else is the exact quotient. -/
def jsDiv (a b : ℚ) : JsNumber :=
  if b = 0 then
    if a = 0 then JsNumber.nan
    else if 0 < a then JsNumber.posInf
    else JsNumber.negInf
  else JsNumber.num (a / b)

/-- MemoryContext from types/memory.types.ts, the return type of
MemoryManager.getRelevantContext. -/
structure MemoryContext where
  chunks : List MemoryChunk
  totalTokens : ℤ
  maxTokens : ℤ
  compressionRatio : JsNumber
deriving DecidableEq

/-- MemoryManager.estimateTokens: the ceiling of length over four. -/
def estimateTokens (text : String) : ℕ := (text.length + 3) / 4

/-- MemoryManager.calculateImportance, translated line by line: base
one half, plus bonuses for user role, citations, attached files and
content longer than 500 characters, capped at one. -/
def calculateImportance (m : Message) : ℚ :=
  let s1 : ℚ := 1/2
  let s2 := if m.role = Role.user then s1 + 1/5 else s1
  let s3 := if m.citations ≠ 0 then s2 + 1/5 else s2
  let s4 := if m.files ≠ 0 then s3 + 3/20 else s3
  let s5 := if 500 < m.content.length then s4 + 1/10 else s4
  min s5 1

/-- Count of query words passing the filter of
MemoryManager.calculateRelevance: length strictly greater than three and
occurrence as a substring of the lowercased content. -/
def keywordMatches (query content : String) : ℕ :=
  ((queryWords query).filter
    (fun w => 3 < w.length && isSubCh w (lowerCh content.toList))).length

/-- Keyword component of MemoryManager.calculateRelevance: matches
divided by the number of query words (the denominator counts every query
word, and is never zero because splitting never yields the empty list). -/
def keywordScore (query : String) (c : MemoryChunk) : ℚ :=
  (keywordMatches query c.content : ℚ) / ((queryWords query).length : ℚ)

/-- MemoryManager.calculateRelevance: weighted sum of the keyword,
importance and recency components. -/
def calculateRelevance (query : String) (rec : ℚ → ℚ) (c : MemoryChunk) : ℚ :=
  keywordScore query c * (2/5) + c.importance * (2/5) + rec c.lastAccessed * (1/5)

/-- Characters matched by the JavaScript regex class for word
characters: ASCII letters, digits and underscore. -/
def isWordChar (c : Char) : Bool := c.isAlphanum || c = '_'

/-- Matches of the hashtag regex of MemoryManager.extractTags (a hash
sign followed by one or more word characters, non-overlapping, maximal),
already stripped of the hash sign and lowercased. -/
def hashtagsOf : List Char → List String
  | [] => []
  | c :: rest =>
    if c = '#' then
      match rest.takeWhile isWordChar with
      | [] => hashtagsOf rest
      | w => String.mk (lowerCh w) :: hashtagsOf (rest.dropWhile isWordChar)
    else hashtagsOf rest
termination_by l => l.length
decreasing_by
  all_goals simp only [List.length_cons]
  all_goals first
    | exact Nat.lt_succ_of_le (lengthDropWhileLe _ _)
    | exact Nat.lt_succ_of_le (Nat.le_refl _)

/-- Three backticks, built from character codes. -/
def codeFence : List Char := List.replicate 3 (Char.ofNat 96)

/-- MemoryManager.extractTags: hashtags, then a web-search tag when the
content holds a URL scheme, then a code tag when it holds a code fence. -/
def extractTags (content : String) : List String :=
  let cs := content.toList
  hashtagsOf cs
    ++ (if isSubCh "http://".toList cs || isSubCh "https://".toList cs
        then ["web-search"] else [])
    ++ (if isSubCh codeFence cs then ["code"] else [])

/-- Chunk built for one message inside MemoryManager.addMessages. -/
def messageToChunk (sessionId : String) (now : ℚ) (m : Message) : MemoryChunk :=
  { id := sessionId ++ "-" ++ m.id
    content := m.content
    source := "chat"
    timestamp := m.timestamp
    sessionId := sessionId
    tags := extractTags m.content
    importance := calculateImportance m
    accessCount := 0
    lastAccessed := now }

/-- Map.set on the insertion-ordered ramChunks map: replace in place when
the key exists, append otherwise. -/
def mapSet (ram : List MemoryChunk) (c : MemoryChunk) : List MemoryChunk :=
  if ram.any (fun x => x.id = c.id) then
    ram.map (fun x => if x.id = c.id then c else x)
  else ram ++ [c]

/-- Access-stat update performed on a chunk selected by
MemoryManager.getRelevantContext: the access count goes up by one and the
last-access time becomes the current instant. -/
def touch (now : ℚ) (c : MemoryChunk) : MemoryChunk :=
  { c with accessCount := c.accessCount + 1, lastAccessed := now }

/-- Selection loop of MemoryManager.getRelevantContext: walk the ranked
chunks in order, keep a chunk (updating its access stats) whenever its
estimated tokens still fit the budget, and skip it whole otherwise. -/
def assembleLoop (maxTokens : ℤ) (now : ℚ) :
    List MemoryChunk → ℤ → List MemoryChunk × ℤ
  | [], tot => ([], tot)
  | c :: rest, tot =>
    if tot + (estimateTokens c.content : ℤ) ≤ maxTokens then
      ((touch now c :: (assembleLoop maxTokens now rest (tot + (estimateTokens c.content : ℤ))).1),
        (assembleLoop maxTokens now rest (tot + (estimateTokens c.content : ℤ))).2)
    else
      assembleLoop maxTokens now rest tot

/-- Ranking step of MemoryManager.getRelevantContext: score every
resident chunk and sort descending by score, stably. -/
def rankChunks (query : String) (rec : ℚ → ℚ) (ram : List MemoryChunk) :
    List MemoryChunk :=
  ((ram.map (fun c => (c, calculateRelevance query rec c))).insertionSort
    (fun a b => b.2 ≤ a.2)).map Prod.fst

/-- MemoryManager.getRelevantContext.  Returns the assembled context
together with the updated ramChunks store (selected chunks have their
access stats updated in place in the source). -/
def getRelevantContext (query : String) (maxTokens : ℤ) (now : ℚ)
    (rec : ℚ → ℚ) (ram : List MemoryChunk) :
    MemoryContext × List MemoryChunk :=
  let ranked := rankChunks query rec ram
  let sel := assembleLoop maxTokens now ranked 0
  let selIds := sel.1.map MemoryChunk.id
  ({ chunks := sel.1
     totalTokens := sel.2
     maxTokens := maxTokens
     compressionRatio := jsDiv (sel.1.length : ℚ) (ram.length : ℚ) },
   ram.map (fun c => if selIds.contains c.id then touch now c else c))

/-- Retention score used by MemoryManager.trimRamChunks: half importance
plus half recency. -/
def retentionScore (rec : ℚ → ℚ) (c : MemoryChunk) : ℚ :=
  c.importance * (1/2) + rec c.lastAccessed * (1/2)

/-- MemoryManager.saveToDisk: overwrite the single durable key with the
given chunk list; a storage failure (`ok = false`) is caught and logged
in the source, leaving the durable store unchanged and raising nothing. -/
def saveToDisk (ok : Bool) (chunks disk : List MemoryChunk) : List MemoryChunk :=
  if ok then chunks else disk

/-- MemoryManager.trimRamChunks, with the persistence outcome of its
inner saveToDisk call made explicit as `ok`: when over capacity, sort
ascending by retention score, hand the lowest-scoring surplus to
saveToDisk, then delete exactly those chunks from the hot map. -/
def trimRamChunks (maxRamChunks : ℕ) (rec : ℚ → ℚ) (ok : Bool)
    (ram disk : List MemoryChunk) : List MemoryChunk × List MemoryChunk :=
  if ram.length ≤ maxRamChunks then (ram, disk)
  else
    let sorted := ((ram.map (fun c => (c, retentionScore rec c))).insertionSort
      (fun a b => a.2 ≤ b.2)).map Prod.fst
    let toRemove := sorted.take (sorted.length - maxRamChunks)
    let disk2 := saveToDisk ok toRemove disk
    let removeIds := toRemove.map MemoryChunk.id
    (ram.filter (fun c => !(removeIds.contains c.id)), disk2)

/-- MemoryManager.loadFromDisk: every stored chunk is put back into the
ramChunks map (the JSON date round trip is exact in this model). -/
def loadFromDisk (disk ram : List MemoryChunk) : List MemoryChunk :=
  disk.foldl mapSet ram

/-- MemoryManager.addMessages followed by its trailing trimRamChunks
call: each message becomes a chunk keyed by session and message id. -/
def addMessages (maxRamChunks : ℕ) (rec : ℚ → ℚ) (ok : Bool)
    (msgs : List Message) (sessionId : String) (now : ℚ)
    (ram disk : List MemoryChunk) : List MemoryChunk × List MemoryChunk :=
  trimRamChunks maxRamChunks rec ok
    (msgs.foldl (fun r m => mapSet r (messageToChunk sessionId now m)) ram) disk

/-- ContextItem of MemoryContextProcessor, with the optional pinned flag
of its metadata defaulted to false. -/
structure ContextItem where
  id : String
  content : String
  pinned : Bool
deriving DecidableEq

/-- The two item collections of the ProjectContext state of
MemoryContextProcessor that pinning and pruning read and write. -/
structure ProjectContext where
  chatHistory : List ContextItem
  pinnedItems : List ContextItem
deriving DecidableEq

/-- MemoryContextProcessor.findContextItem: first match in chatHistory,
then first match in pinnedItems. -/
def findContextItem (itemId : String) (s : ProjectContext) : Option ContextItem :=
  (s.chatHistory.find? (fun i => i.id = itemId)).orElse
    (fun _ => s.pinnedItems.find? (fun i => i.id = itemId))

/-- MemoryContextProcessor.togglePin.  The source mutates the found item
through its shared reference, which this model renders by rewriting the
item with that id in both lists; in both the pin and the unpin branch the
source returns true. -/
def togglePin (itemId : String) (s : ProjectContext) : Bool × ProjectContext :=
  match findContextItem itemId s with
  | none => (false, s)
  | some item =>
    if item.pinned then
      (true,
        { chatHistory := s.chatHistory.map
            (fun i => if i.id = itemId then { i with pinned := false } else i)
          pinnedItems := (s.pinnedItems.map
            (fun i => if i.id = itemId then { i with pinned := false } else i)).filter
            (fun p => !(p.id = itemId)) })
    else
      (true,
        { chatHistory := s.chatHistory.map
            (fun i => if i.id = itemId then { i with pinned := true } else i)
          pinnedItems := (s.pinnedItems.map
            (fun i => if i.id = itemId then { i with pinned := true } else i))
            ++ [{ item with pinned := true }] })

/-- JavaScript slice with a single, possibly negative, start index. -/
def jsSliceFrom (l : List ContextItem) (s : ℤ) : List ContextItem :=
  l.drop (if s < 0 then ((l.length : ℤ) + s).toNat else s.toNat.min l.length)

/-- MemoryContextProcessor.pruneContext with the maxContextItems field as
a parameter.  The count arithmetic is carried out in ℤ because the
difference of maxContextItems and the pinned count may be negative in the
source. -/
def pruneContext (maxContextItems : ℕ) (s : ProjectContext) : ProjectContext :=
  if maxContextItems < s.chatHistory.length then
    let pinnedIds := s.pinnedItems.map ContextItem.id
    let nonPinned := s.chatHistory.filter (fun i => !(pinnedIds.contains i.id))
    let toKeep : ℤ := (maxContextItems : ℤ) - (s.pinnedItems.length : ℤ)
    if toKeep < (nonPinned.length : ℤ) then
      { s with chatHistory := s.pinnedItems ++ jsSliceFrom nonPinned (-toKeep) }
    else s
  else s

/-- Keyword component as worded by the spec: fraction of query terms of
length greater than three that appear, case-insensitively, as a substring
of the chunk content or of any tag; shorter terms excluded from numerator
and denominator alike.  Stated for comparison with keywordScore. -/
def keywordScoreClaim (query : String) (c : MemoryChunk) : ℚ :=
  let longs := (queryWords query).filter (fun w => 3 < w.length)
  let hits := longs.filter (fun w =>
    isSubCh w (lowerCh c.content.toList)
      || c.tags.any (fun t => isSubCh w (lowerCh t.toList)))
  (hits.length : ℚ) / (longs.length : ℚ)

/-- Amended keyword description: among all query terms, those of length
greater than three occurring case-insensitively in the content alone are
counted, and the count is divided by the total number of query terms.
Stated for comparison with keywordScore. -/
def keywordScoreAmended (query : String) (c : MemoryChunk) : ℚ :=
  ((((queryWords query).filter (fun w => isSubCh w (lowerCh c.content.toList))).filter
      (fun w => 3 < w.length)).length : ℚ)
    / ((queryWords query).length : ℚ)

/-- Importance formula as worded by the spec: base one half plus the
four bonuses, capped at one.  Stated for comparison with
calculateImportance. -/
def importanceSpec (m : Message) : ℚ :=
  min (1/2 + (if m.role = Role.user then (1/5 : ℚ) else 0)
    + (if m.citations ≠ 0 then (1/5 : ℚ) else 0)
    + (if m.files ≠ 0 then (3/20 : ℚ) else 0)
    + (if 500 < m.content.length then (1/10 : ℚ) else 0)) 1

/-- Running total of the selection loop never exceeds the budget once it
is below it. -/
theorem assembleLoop_snd_le (maxTokens : ℤ) (now : ℚ) :
    ∀ (l : List MemoryChunk) (tot : ℤ), tot ≤ maxTokens →
      (assembleLoop maxTokens now l tot).2 ≤ maxTokens := by
  intro l
  induction l with
  | nil => intro tot h; simpa [assembleLoop] using h
  | cons c rest ih =>
    intro tot h
    by_cases hg : tot + (estimateTokens c.content : ℤ) ≤ maxTokens
    · simp only [assembleLoop, if_pos hg]
      exact ih _ hg
    · simp only [assembleLoop, if_neg hg]
      exact ih _ h

/-- Final total of the selection loop is the initial total plus the
estimated tokens of the selected chunks. -/
theorem assembleLoop_snd_eq (maxTokens : ℤ) (now : ℚ) :
    ∀ (l : List MemoryChunk) (tot : ℤ),
      (assembleLoop maxTokens now l tot).2
        = tot + ((assembleLoop maxTokens now l tot).1.map
            (fun c => (estimateTokens c.content : ℤ))).sum := by
  intro l
  induction l with
  | nil => intro tot; simp [assembleLoop]
  | cons c rest ih =>
    intro tot
    by_cases hg : tot + (estimateTokens c.content : ℤ) ≤ maxTokens
    · simp only [assembleLoop, if_pos hg, List.map_cons, List.sum_cons]
      rw [ih]
      have hc : estimateTokens (touch now c).content = estimateTokens c.content := rfl
      rw [hc]
      ring
    · simp only [assembleLoop, if_neg hg]
      exact ih tot

/-- Every chunk emitted by the selection loop is a touched copy of a
chunk of the input list. -/
theorem assembleLoop_mem (maxTokens : ℤ) (now : ℚ) :
    ∀ (l : List MemoryChunk) (tot : ℤ) (x : MemoryChunk),
      x ∈ (assembleLoop maxTokens now l tot).1 →
        ∃ c, c ∈ l ∧ x = touch now c := by
  intro l
  induction l with
  | nil => intro tot x hx; simp [assembleLoop] at hx
  | cons c rest ih =>
    intro tot x hx
    by_cases hg : tot + (estimateTokens c.content : ℤ) ≤ maxTokens
    · simp only [assembleLoop, if_pos hg, List.mem_cons] at hx
      rcases hx with hx | hx
      · exact ⟨c, List.mem_cons_self _ _, hx⟩
      · rcases ih _ _ hx with ⟨d, hd, hxd⟩
        exact ⟨d, List.mem_cons_of_mem _ hd, hxd⟩
    · simp only [assembleLoop, if_neg hg] at hx
      rcases ih _ _ hx with ⟨d, hd, hxd⟩
      exact ⟨d, List.mem_cons_of_mem _ hd, hxd⟩

/-- When the whole list fits the budget, the selection loop keeps every
chunk, in order, and the total is the full sum. -/
theorem assembleLoop_all (maxTokens : ℤ) (now : ℚ) :
    ∀ (l : List MemoryChunk) (tot : ℤ),
      tot + (l.map (fun c => (estimateTokens c.content : ℤ))).sum ≤ maxTokens →
      assembleLoop maxTokens now l tot
        = (l.map (touch now),
            tot + (l.map (fun c => (estimateTokens c.content : ℤ))).sum) := by
  intro l
  induction l with
  | nil => intro tot h; simp [assembleLoop]
  | cons c rest ih =>
    intro tot h
    have hS : 0 ≤ (rest.map (fun c => (estimateTokens c.content : ℤ))).sum := by
      apply List.sum_nonneg
      intro x hx
      simp only [List.mem_map] at hx
      rcases hx with ⟨d, _, hxd⟩
      exact hxd ▸ Int.ofNat_nonneg _
    have hsum : tot + ((estimateTokens c.content : ℤ)
        + (rest.map (fun c => (estimateTokens c.content : ℤ))).sum) ≤ maxTokens := by
      simpa [List.map_cons, List.sum_cons] using h
    have hg : tot + (estimateTokens c.content : ℤ) ≤ maxTokens := by linarith
    have hrec : (tot + (estimateTokens c.content : ℤ))
        + (rest.map (fun c => (estimateTokens c.content : ℤ))).sum ≤ maxTokens := by
      linarith
    simp only [assembleLoop, if_pos hg, ih _ hrec, List.map_cons, List.sum_cons]
    refine Prod.ext rfl ?_
    ring

/-- With a non-positive budget and every chunk estimating to at least one
token, the selection loop keeps nothing. -/
theorem assembleLoop_empty (maxTokens : ℤ) (now : ℚ) (hmax : maxTokens ≤ 0) :
    ∀ (l : List MemoryChunk) (tot : ℤ), 0 ≤ tot →
      (∀ c ∈ l, 1 ≤ estimateTokens c.content) →
      assembleLoop maxTokens now l tot = ([], tot) := by
  intro l
  induction l with
  | nil => intro tot _ _; simp [assembleLoop]
  | cons c rest ih =>
    intro tot htot hall
    have h1 : (1 : ℤ) ≤ (estimateTokens c.content : ℤ) := by
      exact_mod_cast hall c (List.mem_cons_self _ _)
    have hg : ¬(tot + (estimateTokens c.content : ℤ) ≤ maxTokens) := by linarith
    simp only [assembleLoop, if_neg hg]
    exact ih tot htot (fun d hd => hall d (List.mem_cons_of_mem _ hd))

/-- Ranking permutes the resident chunk list. -/
theorem rankChunks_perm (query : String) (rec : ℚ → ℚ) (ram : List MemoryChunk) :
    List.Perm (rankChunks query rec ram) ram := by
  have h := (List.perm_insertionSort (fun a b => b.2 ≤ a.2)
    (ram.map (fun c => (c, calculateRelevance query rec c)))).map Prod.fst
  simpa [rankChunks, List.map_map, Function.comp_def] using h

/-- Membership in a mapSet result comes from the inserted chunk or the
original map. -/
theorem mapSet_mem (ram : List MemoryChunk) (c x : MemoryChunk)
    (hx : x ∈ mapSet ram c) : x = c ∨ x ∈ ram := by
  unfold mapSet at hx
  split at hx
  · rcases List.mem_map.mp hx with ⟨d, hd, hxd⟩
    by_cases hid : d.id = c.id
    · left
      simpa [hid] using hxd.symm
    · right
      have : x = d := by simpa [hid] using hxd.symm
      exact this ▸ hd
  · rcases List.mem_append.mp hx with h | h
    · exact Or.inr h
    · exact Or.inl (by simpa using h)

/-- Membership in a loadFromDisk result comes from the disk or the
original map. -/
theorem loadFromDisk_mem :
    ∀ (disk ram : List MemoryChunk) (x : MemoryChunk),
      x ∈ loadFromDisk disk ram → x ∈ disk ∨ x ∈ ram := by
  intro disk
  induction disk with
  | nil => intro ram x hx; exact Or.inr hx
  | cons c rest ih =>
    intro ram x hx
    rcases ih (mapSet ram c) x hx with h | h
    · exact Or.inl (List.mem_cons_of_mem _ h)
    · rcases mapSet_mem ram c x h with h2 | h2
      · exact Or.inl (h2 ▸ List.mem_cons_self _ _)
      · exact Or.inr h2

/-- Fixture: a chunk of importance zero for concrete scenarios. -/
def chunkA0 : MemoryChunk :=
  { id := "a", content := "hello", source := "chat", timestamp := 0,
    sessionId := "s", tags := [], importance := 0, accessCount := 0,
    lastAccessed := 0 }

/-- Fixture: a chunk of importance one for concrete scenarios. -/
def chunkB1 : MemoryChunk :=
  { id := "b", content := "hello", source := "chat", timestamp := 0,
    sessionId := "s", tags := [], importance := 1, accessCount := 0,
    lastAccessed := 0 }

/-- Fixture: the higher-importance member of a duplicate-content pair. -/
def chunkDupHi : MemoryChunk :=
  { id := "a", content := "hello", source := "chat", timestamp := 0,
    sessionId := "s", tags := [], importance := 9/10, accessCount := 2,
    lastAccessed := 0 }

/-- Fixture: the lower-importance member of a duplicate-content pair. -/
def chunkDupLo : MemoryChunk :=
  { id := "b", content := "hello", source := "chat", timestamp := 0,
    sessionId := "s", tags := [], importance := 1/2, accessCount := 3,
    lastAccessed := 0 }

/-- Fixture: a chunk whose content holds one long query term and whose
tag holds another. -/
def chunkKw : MemoryChunk :=
  { id := "k", content := "testing", source := "chat", timestamp := 0,
    sessionId := "s", tags := ["alpha"], importance := 0, accessCount := 0,
    lastAccessed := 0 }

/-- Fixture: a persisted chunk with id a. -/
def chunkX : MemoryChunk :=
  { id := "a", content := "x", source := "chat", timestamp := 0,
    sessionId := "s", tags := [], importance := 1, accessCount := 0,
    lastAccessed := 0 }

/-- Fixture: a freshly saved chunk with id b. -/
def chunkY : MemoryChunk :=
  { id := "b", content := "y", source := "chat", timestamp := 0,
    sessionId := "s", tags := [], importance := 1, accessCount := 0,
    lastAccessed := 0 }

/-- Fixture: a user message with a citation and an attached file. -/
def msgEx : Message :=
  { id := "m", role := Role.user, content := "hi", timestamp := 0,
    citations := 1, files := 1 }

/-- Fixture: a pinned context item. -/
def itemP : ContextItem := { id := "a", content := "x", pinned := true }

/-- Fixture: an unpinned context item. -/
def itemQ : ContextItem := { id := "b", content := "y", pinned := false }

/-- Fixture: another unpinned context item. -/
def itemR : ContextItem := { id := "c", content := "z", pinned := false }

/-- Fixture: a processor state with one pinned and two unpinned items. -/
def ctxEx : ProjectContext :=
  { chatHistory := [itemP, itemQ, itemR], pinnedItems := [itemP] }

/-- Fixture: the empty processor state. -/
def ctxEmpty : ProjectContext := { chatHistory := [], pinnedItems := [] }

/-- Fixture: a processor state holding exactly one pinned item. -/
def ctxPinned : ProjectContext :=
  { chatHistory := [itemP], pinnedItems := [itemP] }

/-- Auxiliary: the conditional access-stat rewrite of
getRelevantContext leaves id and importance unchanged either way. -/
theorem iteTouchFields (now : ℚ) (p : Prop) [Decidable p] (c : MemoryChunk) :
    (if p then touch now c else c).id = c.id
      ∧ (if p then touch now c else c).importance = c.importance := by
  split
  · exact ⟨rfl, rfl⟩
  · exact ⟨rfl, rfl⟩

/-- Claim C1, counterexample: after a successful save of a chunk set, a
previously persisted chunk that is not in that set is no longer in the
durable store — the save path replaces instead of merging. -/
theorem c1_counterexample :
    ¬ (chunkX ∈ saveToDisk true [chunkY] [chunkX]) := by
  decide

/-- Claim C1, amended: the save path replaces the durable store — after a
successful save the store is exactly the given chunk set, and after a
failed save it is unchanged; previously persisted chunks not in the given
set are lost. -/
theorem c1_save_replaces (chunks disk : List MemoryChunk) :
    saveToDisk true chunks disk = chunks ∧ saveToDisk false chunks disk = disk :=
  ⟨rfl, rfl⟩

/-- Claim C2, amended: eviction ignores the persistence outcome — the hot
store left by trimRamChunks is the same whether the inner save succeeded
or failed (so a chunk whose persistence failed is removed anyway), the
durable store is unchanged on failure, and no error reaches the caller
(the function is total). -/
theorem c2_eviction_ignores_persistence (maxRam : ℕ) (rec : ℚ → ℚ)
    (ram disk : List MemoryChunk) :
    (trimRamChunks maxRam rec false ram disk).1
        = (trimRamChunks maxRam rec true ram disk).1
      ∧ (trimRamChunks maxRam rec false ram disk).2 = disk := by
  unfold trimRamChunks
  split
  · exact ⟨rfl, rfl⟩
  · exact ⟨rfl, rfl⟩

/-- Claim C2, counterexample: with maxRamChunks 1 and a failing save, the
lowest-scoring chunk is removed from the hot store anyway and the durable
store stays empty, so the chunk is lost although its persistence failed. -/
theorem c2_counterexample :
    ¬ (chunkA0 ∈ (trimRamChunks 1 (fun _ => 1) false [chunkA0, chunkB1] []).1)
      ∧ (trimRamChunks 1 (fun _ => 1) false [chunkA0, chunkB1] []).2 = [] := by
  have hsort : (([chunkA0, chunkB1].map
        (fun c => (c, retentionScore (fun _ => 1) c))).insertionSort
          (fun a b => a.2 ≤ b.2))
      = [chunkA0, chunkB1].map (fun c => (c, retentionScore (fun _ => 1) c)) := by
    simp only [List.map, List.insertionSort, List.orderedInsert, retentionScore,
      chunkA0, chunkB1]
    norm_num
  have htrim : trimRamChunks 1 (fun _ => 1) false [chunkA0, chunkB1] []
      = ([chunkB1], []) := by
    rw [trimRamChunks, if_neg (by norm_num [chunkA0, chunkB1])]
    dsimp only
    rw [hsort]
    decide
  refine ⟨?_, ?_⟩
  · rw [htrim]
    decide
  · rw [htrim]

/-- Claim C3: no pinned item is removed by the automatic trim — every
item that is both resident in chatHistory and in the pinned set before
pruneContext runs is still resident in chatHistory afterwards.  (The
chunks of MemoryManager carry no pin flag at all, so its trimRamChunks
satisfies the claim vacuously.) -/
theorem c3_pinned_survive_prune (maxItems : ℕ) (s : ProjectContext)
    (item : ContextItem) (hc : item ∈ s.chatHistory) (hp : item ∈ s.pinnedItems) :
    item ∈ (pruneContext maxItems s).chatHistory := by
  unfold pruneContext
  split
  · dsimp only
    split
    · exact List.mem_append_left _ hp
    · exact hc
  · exact hc

/-- Claim C3, witness: a pinned item survives a concrete prune that
removes unpinned items. -/
theorem c3_witness : itemP ∈ (pruneContext 1 ctxEx).chatHistory :=
  c3_pinned_survive_prune 1 ctxEx itemP (by decide) (by decide)

/-- Claim C4, counterexample: with token budget -1 the selection returns
no chunks, so the sum of estimated tokens of the result is 0, which is
strictly greater than the budget — the bound of the claim fails for
negative budgets. -/
theorem c4_counterexample :
    ¬ ((((getRelevantContext "q" (-1) 0 (fun _ => 1) [chunkB1]).1).chunks.map
        (fun c => (estimateTokens c.content : ℤ))).sum ≤ (-1 : ℤ)) := by
  decide

/-- Claim C4, amended: for every nonnegative token budget, the sum of
estimated tokens of the assembled chunks is at most the budget, the
reported total equals that sum, and every emitted chunk carries the
unmodified content of a stored chunk — an oversize chunk is skipped
whole, never truncated. -/
theorem c4_budget (query : String) (budget : ℤ) (now : ℚ) (rec : ℚ → ℚ)
    (ram : List MemoryChunk) (hb : 0 ≤ budget) :
    (((getRelevantContext query budget now rec ram).1).chunks.map
        (fun c => (estimateTokens c.content : ℤ))).sum ≤ budget
    ∧ ((getRelevantContext query budget now rec ram).1).totalTokens
      = (((getRelevantContext query budget now rec ram).1).chunks.map
          (fun c => (estimateTokens c.content : ℤ))).sum
    ∧ ∀ x ∈ ((getRelevantContext query budget now rec ram).1).chunks,
        ∃ c ∈ ram, x.content = c.content := by
  have h0 : (assembleLoop budget now (rankChunks query rec ram) 0).2
      = ((assembleLoop budget now (rankChunks query rec ram) 0).1.map
          (fun c => (estimateTokens c.content : ℤ))).sum := by
    simpa using assembleLoop_snd_eq budget now (rankChunks query rec ram) 0
  refine ⟨?_, ?_, ?_⟩
  · exact h0 ▸ assembleLoop_snd_le budget now (rankChunks query rec ram) 0 hb
  · exact h0
  · intro x hx
    rcases assembleLoop_mem budget now (rankChunks query rec ram) 0 x hx with
      ⟨c, hcr, hxc⟩
    refine ⟨c, ((rankChunks_perm query rec ram).mem_iff).mp hcr, ?_⟩
    rw [hxc]
    rfl

/-- Claim C4, witness: at a concrete store and budget the token bound of
the amended claim holds. -/
theorem c4_witness :
    (((getRelevantContext "q" 2000 0 (fun _ => 1) [chunkB1]).1).chunks.map
        (fun c => (estimateTokens c.content : ℤ))).sum ≤ 2000 :=
  (c4_budget "q" 2000 0 (fun _ => 1) [chunkB1] (by norm_num)).1

/-- Claim C5, counterexample: for the query of the three terms go,
testing and alpha against a chunk whose content holds testing and whose
tag holds alpha, the keyword component computed by the source is one
third (the denominator counts the short term go, and the tag is never
consulted), while the fraction described by the claim is one. -/
theorem c5_counterexample :
    keywordScore "go testing alpha" chunkKw = 1/3
      ∧ keywordScoreClaim "go testing alpha" chunkKw = 1
      ∧ keywordScore "go testing alpha" chunkKw
          ≠ keywordScoreClaim "go testing alpha" chunkKw := by
  have hm : keywordMatches "go testing alpha" "testing" = 1 := by decide
  have hl : (queryWords "go testing alpha").length = 3 := by decide
  have h1 : keywordScore "go testing alpha" chunkKw = 1/3 := by
    simp only [keywordScore, chunkKw, hm, hl]
    norm_num
  have hhits : (((queryWords "go testing alpha").filter
      (fun w => 3 < w.length)).filter (fun w =>
        isSubCh w (lowerCh ("testing" : String).toList)
          || (["alpha"] : List String).any
              (fun t => isSubCh w (lowerCh t.toList)))).length = 2 := by
    decide
  have hlongs : ((queryWords "go testing alpha").filter
      (fun w => 3 < w.length)).length = 2 := by decide
  have h2 : keywordScoreClaim "go testing alpha" chunkKw = 1 := by
    simp only [keywordScoreClaim, chunkKw, hhits, hlongs]
    norm_num
  refine ⟨h1, h2, ?_⟩
  rw [h1, h2]
  norm_num

/-- Claim C5, amended: the keyword component equals the number of query
terms of length greater than three that occur case-insensitively in the
chunk content, divided by the total number of query terms (short terms
stay in the denominator); the tags play no role in the relevance score. -/
theorem c5_keyword (query : String) (rec : ℚ → ℚ) (c : MemoryChunk)
    (ts : List String) :
    keywordScore query c = keywordScoreAmended query c
      ∧ calculateRelevance query rec { c with tags := ts }
          = calculateRelevance query rec c := by
  constructor
  · simp only [keywordScore, keywordScoreAmended, keywordMatches,
      List.filter_filter]
  · rfl

/-- Claim C6, counterexample: an empty query on a positive budget does
not return the empty result — the store chunk is still selected on
importance and recency alone, with two estimated tokens. -/
theorem c6_counterexample :
    ((getRelevantContext "" 2000 0 (fun _ => 1) [chunkB1]).1).chunks ≠ []
      ∧ ((getRelevantContext "" 2000 0 (fun _ => 1) [chunkB1]).1).totalTokens = 2 := by
  decide

/-- Claim C6, amended: a context-assembly request whose token budget is
at most zero returns the empty chunk list and a zero total (for stores
whose chunks have nonempty content), and raises nothing; an empty query
does not short-circuit and can still return chunks. -/
theorem c6_nonpositive_budget (query : String) (budget : ℤ) (now : ℚ)
    (rec : ℚ → ℚ) (ram : List MemoryChunk) (hb : budget ≤ 0)
    (hne : ∀ c ∈ ram, 0 < c.content.length) :
    ((getRelevantContext query budget now rec ram).1).chunks = []
      ∧ ((getRelevantContext query budget now rec ram).1).totalTokens = 0 := by
  have hall : ∀ c ∈ rankChunks query rec ram, 1 ≤ estimateTokens c.content := by
    intro c hc
    have hlen := hne c (((rankChunks_perm query rec ram).mem_iff).mp hc)
    unfold estimateTokens
    exact (Nat.le_div_iff_mul_le (by norm_num)).mpr (by omega)
  have h := assembleLoop_empty budget now hb (rankChunks query rec ram) 0
    le_rfl hall
  constructor
  · show (assembleLoop budget now (rankChunks query rec ram) 0).1 = []
    rw [h]
  · show (assembleLoop budget now (rankChunks query rec ram) 0).2 = 0
    rw [h]

/-- Claim C6, witness: budget zero on a concrete nonempty store returns
the empty chunk list and zero tokens. -/
theorem c6_witness :
    ((getRelevantContext "x" 0 0 (fun _ => 1) [chunkB1]).1).chunks = []
      ∧ ((getRelevantContext "x" 0 0 (fun _ => 1) [chunkB1]).1).totalTokens = 0 :=
  c6_nonpositive_budget "x" 0 0 (fun _ => 1) [chunkB1] (by norm_num) (by decide)

/-- Claim C7: the importance of a chunk is assigned at creation as base
one half, plus one fifth for a user role, one fifth for citations, three
twentieths for attached files and one tenth for content longer than 500
characters, capped at one; the value lies in the unit interval; and no
later operation mutates it — context assembly rewrites only access
stats (ids and importance values trace back to stored chunks), trimming
only deletes, and a persistence round trip returns stored chunks
unchanged. -/
theorem c7_importance_static (m : Message) :
    calculateImportance m = importanceSpec m
    ∧ 0 ≤ calculateImportance m
    ∧ calculateImportance m ≤ 1
    ∧ (∀ (sid : String) (now : ℚ),
        (messageToChunk sid now m).importance = calculateImportance m)
    ∧ (∀ (query : String) (budget : ℤ) (now : ℚ) (rec : ℚ → ℚ)
        (ram : List MemoryChunk) (x : MemoryChunk),
          x ∈ (getRelevantContext query budget now rec ram).2 →
            ∃ c ∈ ram, x.id = c.id ∧ x.importance = c.importance)
    ∧ (∀ (query : String) (budget : ℤ) (now : ℚ) (rec : ℚ → ℚ)
        (ram : List MemoryChunk) (x : MemoryChunk),
          x ∈ ((getRelevantContext query budget now rec ram).1).chunks →
            ∃ c ∈ ram, x.id = c.id ∧ x.importance = c.importance)
    ∧ (∀ (maxRam : ℕ) (rec : ℚ → ℚ) (ok : Bool) (ram disk : List MemoryChunk)
        (x : MemoryChunk),
          x ∈ (trimRamChunks maxRam rec ok ram disk).1 → x ∈ ram)
    ∧ (∀ (disk ram : List MemoryChunk) (x : MemoryChunk),
        x ∈ loadFromDisk disk ram → x ∈ disk ∨ x ∈ ram) := by
  refine ⟨?_, ?_, ?_, ?_, ?_, ?_, ?_, ?_⟩
  · simp only [calculateImportance, importanceSpec]
    split_ifs <;> norm_num [min_def]
  · simp only [calculateImportance]
    split_ifs <;> norm_num [min_def]
  · simp only [calculateImportance]
    exact min_le_right _ _
  · intro sid now
    rfl
  · intro query budget now rec ram x hx
    have hx2 : x ∈ ram.map (fun c =>
        if ((assembleLoop budget now (rankChunks query rec ram) 0).1.map
            MemoryChunk.id).contains c.id then touch now c else c) := hx
    rcases List.mem_map.mp hx2 with ⟨c, hc, hfc⟩
    refine ⟨c, hc, ?_, ?_⟩
    · rw [← hfc]
      exact (iteTouchFields now _ c).1
    · rw [← hfc]
      exact (iteTouchFields now _ c).2
  · intro query budget now rec ram x hx
    rcases assembleLoop_mem budget now (rankChunks query rec ram) 0 x hx with
      ⟨c, hcr, hxc⟩
    refine ⟨c, ((rankChunks_perm query rec ram).mem_iff).mp hcr, ?_, ?_⟩
    · rw [hxc]
      rfl
    · rw [hxc]
      rfl
  · intro maxRam rec ok ram disk x hx
    by_cases h : ram.length ≤ maxRam
    · rw [trimRamChunks, if_pos h] at hx
      simpa using hx
    · rw [trimRamChunks, if_neg h] at hx
      dsimp only at hx
      exact List.mem_of_mem_filter hx
  · exact loadFromDisk_mem

/-- Claim C7, witness: at a concrete user message with a citation and an
attached file, the computed importance agrees with the spec formula. -/
theorem c7_witness : calculateImportance msgEx = importanceSpec msgEx :=
  (c7_importance_static msgEx).1

/-- Claim C8, counterexample: two stored chunks with identical content
hello and different importance are both returned by assembly, each with
its own access count incremented by one — no deduplication happens and
no access counts are summed into a representative. -/
theorem c8_counterexample :
    (((getRelevantContext "" 2000 0 (fun _ => 1)
        [chunkDupHi, chunkDupLo]).1).chunks.map
          (fun c => (c.content, c.accessCount))) = [("hello", 3), ("hello", 4)] := by
  have hm : keywordMatches "" "hello" = 0 := by decide
  have hl : (queryWords "").length = 1 := by decide
  have hsort : rankChunks "" (fun _ => 1) [chunkDupHi, chunkDupLo]
      = [chunkDupHi, chunkDupLo] := by
    simp only [rankChunks, List.map, List.insertionSort, List.orderedInsert,
      calculateRelevance, keywordScore, chunkDupHi, chunkDupLo]
    norm_num [hm, hl]
  have hchunks : ((getRelevantContext "" 2000 0 (fun _ => 1)
      [chunkDupHi, chunkDupLo]).1).chunks
      = (assembleLoop 2000 0 (rankChunks "" (fun _ => 1)
          [chunkDupHi, chunkDupLo]) 0).1 := rfl
  rw [hchunks, hsort]
  decide

/-- Claim C8, amended: context assembly performs no deduplication — when
the ranked candidates all fit the budget, the assembled result is every
ranked chunk in order, duplicates included, each with its own access
count incremented by one (never summed into a representative). -/
theorem c8_no_dedup (query : String) (budget : ℤ) (now : ℚ) (rec : ℚ → ℚ)
    (ram : List MemoryChunk)
    (h : ((rankChunks query rec ram).map
        (fun c => (estimateTokens c.content : ℤ))).sum ≤ budget) :
    ((getRelevantContext query budget now rec ram).1).chunks
      = (rankChunks query rec ram).map (touch now) := by
  have h0 : (0 : ℤ) + ((rankChunks query rec ram).map
      (fun c => (estimateTokens c.content : ℤ))).sum ≤ budget := by
    simpa using h
  have hall := assembleLoop_all budget now (rankChunks query rec ram) 0 h0
  show (assembleLoop budget now (rankChunks query rec ram) 0).1 = _
  rw [hall]

/-- Claim C8, witness: on the concrete duplicate-content pool the whole
ranked pool is returned, touched chunk by chunk. -/
theorem c8_witness :
    ((getRelevantContext "" 2000 0 (fun _ => 1)
        [chunkDupHi, chunkDupLo]).1).chunks
      = (rankChunks "" (fun _ => 1) [chunkDupHi, chunkDupLo]).map (touch 0) := by
  apply c8_no_dedup
  have hm : keywordMatches "" "hello" = 0 := by decide
  have hl : (queryWords "").length = 1 := by decide
  have hsort : rankChunks "" (fun _ => 1) [chunkDupHi, chunkDupLo]
      = [chunkDupHi, chunkDupLo] := by
    simp only [rankChunks, List.map, List.insertionSort, List.orderedInsert,
      calculateRelevance, keywordScore, chunkDupHi, chunkDupLo]
    norm_num [hm, hl]
  rw [hsort]
  decide

/-- Claim C9, counterexample: toggling a currently pinned item returns
true although the new pinned state is false — the returned boolean is a
success flag, not the new pinned state. -/
theorem c9_counterexample :
    (togglePin "a" ctxPinned).1 = true
      ∧ ((togglePin "a" ctxPinned).2.chatHistory.map ContextItem.pinned)
          = [false] := by
  decide

/-- Claim C9, amended: togglePin returns true whenever an item with the
given id exists (whatever the resulting pin state) and returns false,
leaving the state untouched, when no item matches; it never throws. -/
theorem c9_pin_flag (s : ProjectContext) (itemId : String) :
    (findContextItem itemId s = none → togglePin itemId s = (false, s))
      ∧ ((findContextItem itemId s).isSome → (togglePin itemId s).1 = true) := by
  constructor
  · intro h
    unfold togglePin
    rw [h]
  · intro h
    rcases hf : findContextItem itemId s with _ | item
    · rw [hf] at h
      simp at h
    · simp only [togglePin, hf]
      split <;> rfl

/-- Claim C9, witness: toggling an unknown id on the empty state returns
the failure signal false and leaves the state unchanged. -/
theorem c9_witness : togglePin "zz" ctxEmpty = (false, ctxEmpty) :=
  (c9_pin_flag ctxEmpty "zz").1 (by decide)

/-- Claim C10: on an empty hot cache, assembly returns the empty chunk
list and a zero total for every query and budget, and the compression
ratio is the unguarded JavaScript division zero over zero, that is NaN. -/
theorem c10_empty_store_nan (query : String) (budget : ℤ) (now : ℚ)
    (rec : ℚ → ℚ) :
    getRelevantContext query budget now rec []
      = ({ chunks := [], totalTokens := 0, maxTokens := budget,
           compressionRatio := JsNumber.nan }, []) := by
  rfl

end Ollacode
